import Mathlib

/-!
Verification of `process.py` from the daylio-hwf-interconnector repository.

The development shallowly embeds the program's data model and operations:

* JSON documents are modelled by the inductive `JVal`; Python dictionaries
  are association lists together with `pdictGet` / `pdictInsert`, where
  `pdictInsert` mirrors `d[k] = v` (replace the binding in place when the
  key exists, append otherwise) and dict comprehensions are left folds of
  `pdictInsert` starting from the empty list.
* Fallible Python code (`KeyError`, `AttributeError`, `TypeError`,
  `StopIteration`) is modelled with `Except String`.
* CSV input is modelled as the list of rows produced by `csv.reader`,
  each row a list of cell strings; a blank line yields the empty row `[]`.
* `datetime.strptime` with format `"%Y %a %b %d %I:%M %p"` is modelled by
  `parseHWFDate`, including the validation performed by the `datetime`
  constructor (month lengths, leap years, year ≥ 1).
* `datetime.timestamp()` of a naive datetime is interpreted with the
  process environment's timezone set to UTC (`naiveEpochMs`), matching the
  program's stated intent; the format carries whole minutes only, so the
  float arithmetic `int(dt.timestamp() * 1000)` is exact and is modelled
  with exact integer arithmetic.
-/

/-- A JSON-like value, the shape of data handled by `json.load`. -/
inductive JVal where
  | null : JVal
  | bool : Bool → JVal
  | int : Int → JVal
  | str : String → JVal
  | arr : List JVal → JVal
  | obj : List (String × JVal) → JVal

/-- Python dict lookup `d.get(k)` on an association list. -/
def pdictGet {α β : Type} [DecidableEq α] : List (α × β) → α → Option β
  | [], _ => none
  | p :: rest, k => if p.1 = k then some p.2 else pdictGet rest k

/-- Python dict assignment `d[k] = v`: replace the binding in place when the
key is present, append a new binding otherwise. -/
def pdictInsert {α β : Type} [DecidableEq α] : List (α × β) → α → β → List (α × β)
  | [], k, v => [(k, v)]
  | p :: rest, k, v => if p.1 = k then (k, v) :: rest else p :: pdictInsert rest k v

/-- Drop every binding of key `k` (used to compare dicts up to one key). -/
def pdictErase {α β : Type} [DecidableEq α] (l : List (α × β)) (k : α) : List (α × β) :=
  l.filter (fun p => p.1 ≠ k)

/-- Python `max(xs, default=d)`: the default applies only to an empty list. -/
def pymax (l : List Int) (d : Int) : Int :=
  match l with
  | [] => d
  | x :: xs => xs.foldl max x

/-- ASCII lowering of one character, as Python `str.lower()` acts on ASCII
text (tag names are ASCII; the Unicode part of `str.lower` is not modelled). -/
def pyLowerChar (c : Char) : Char :=
  if 65 ≤ c.toNat ∧ c.toNat ≤ 90 then Char.ofNat (c.toNat + 32) else c

/-- Python `s.lower()` on the modelled ASCII fragment. -/
def pyLower (s : String) : String := ⟨s.data.map pyLowerChar⟩

/-- Python `s.replace(a, b)` for single-character `a`, `b`: a character map. -/
def pyReplace (a b : Char) (s : String) : String :=
  ⟨s.data.map (fun c => if c = a then b else c)⟩

/-- The tag-name canonicalization of `get_tag_ids_from_row`:
`tag_name.lower().replace(" ", "-").replace("/", "-")`. -/
def daylioNorm (s : String) : String :=
  pyReplace '/' '-' (pyReplace ' ' '-' (pyLower s))

/-- The character-level action of `daylioNorm`. -/
def daylioNormChar (c : Char) : Char :=
  if (if pyLowerChar c = ' ' then '-' else pyLowerChar c) = '/' then '-'
  else (if pyLowerChar c = ' ' then '-' else pyLowerChar c)

/-- Python `str.strip()` (whitespace at both ends), structurally recursive so
that concrete instances evaluate. -/
def pyTrim (s : String) : String :=
  ⟨((s.data.dropWhile Char.isWhitespace).reverse.dropWhile Char.isWhitespace).reverse⟩

def splitOnCharAux (sep : Char) : List Char → List Char → List (List Char)
  | [], acc => [acc.reverse]
  | c :: rest, acc =>
    if c = sep then acc.reverse :: splitOnCharAux sep rest []
    else splitOnCharAux sep rest (c :: acc)

/-- Python `s.split(sep)` for a one-character separator (empty parts kept). -/
def pySplitOnChar (sep : Char) (s : String) : List String :=
  (splitOnCharAux sep s.data []).map (fun l => ⟨l⟩)

def wsTokensAux : List Char → List Char → List String
  | [], acc => if acc.isEmpty then [] else [⟨acc.reverse⟩]
  | c :: rest, acc =>
    if c.isWhitespace then
      (if acc.isEmpty then wsTokensAux rest []
       else (⟨acc.reverse⟩ : String) :: wsTokensAux rest [])
    else wsTokensAux rest (c :: acc)

/-- The maximal whitespace-separated tokens of a string (how `strptime`'s
`\s+`-joined field pattern carves the input). -/
def wsTokens (s : String) : List String := wsTokensAux s.data []

/-- Python `int(s)` for an unsigned decimal digit string, `none` otherwise. -/
def strToNat? (s : String) : Option Nat :=
  if s.data ≠ [] ∧ s.data.all Char.isDigit then
    some (s.data.foldl (fun n c => n * 10 + (c.toNat - 48)) 0)
  else none

/-- A naive local date/time as parsed by
`datetime.strptime(date_str, "%Y %a %b %d %I:%M %p")`. -/
structure LocalDT where
  year : Nat
  month : Nat
  day : Nat
  hour : Nat
  minute : Nat
deriving DecidableEq, Repr

/-- C-locale weekday abbreviations accepted by `%a` (matched case-insensitively;
the weekday is parsed but ignored, `strptime` does not check consistency). -/
def dayAbbrevs : List String := ["mon", "tue", "wed", "thu", "fri", "sat", "sun"]

/-- C-locale month abbreviations accepted by `%b` (matched case-insensitively). -/
def monthAbbrevs : List String :=
  ["jan", "feb", "mar", "apr", "may", "jun", "jul", "aug", "sep", "oct", "nov", "dec"]

def isLeapYear (y : Nat) : Bool :=
  (y % 4 = 0 && y % 100 ≠ 0) || y % 400 = 0

def daysInMonth (y m : Nat) : Nat :=
  if m = 2 then (if isLeapYear y then 29 else 28)
  else if m = 4 ∨ m = 6 ∨ m = 9 ∨ m = 11 then 30
  else 31

/-- Model of `datetime.strptime(s, "%Y %a %b %d %I:%M %p")`, including the validation
done by the `datetime` constructor: month length (with leap years) and
`year ≥ 1`.  Whitespace runs separate the six fields as in `strptime`'s
compiled pattern; `%Y` is exactly four digits, `%d`/`%I`/`%M` are one or two
digits in range, `%a`/`%b`/`%p` match case-insensitively.  Returns `none`
exactly where Python raises `ValueError` (which the caller catches). -/
def parseHWFDate (s : String) : Option LocalDT :=
  match wsTokens s with
  | [ys, ws, mos, ds, ts, ps] =>
    if ys.length = 4 then
      match strToNat? ys with
      | none => none
      | some y =>
        if dayAbbrevs.contains (pyLower ws) then
          match List.findIdx? (fun m => m = pyLower mos) monthAbbrevs with
          | none => none
          | some mi =>
            let mo := mi + 1
            if ds.length ≤ 2 then
              match strToNat? ds with
              | none => none
              | some d =>
                if 1 ≤ d ∧ d ≤ 31 then
                  match pySplitOnChar ':' ts with
                  | [hs, mins] =>
                    if hs.length ≤ 2 then
                      match strToNat? hs with
                      | none => none
                      | some h12 =>
                        if 1 ≤ h12 ∧ h12 ≤ 12 then
                          if mins.length ≤ 2 then
                            match strToNat? mins with
                            | none => none
                            | some mi2 =>
                              if mi2 ≤ 59 then
                                match pyLower ps with
                                | "am" =>
                                  let h := if h12 = 12 then 0 else h12
                                  if 1 ≤ y ∧ d ≤ daysInMonth y mo then
                                    some ⟨y, mo, d, h, mi2⟩
                                  else none
                                | "pm" =>
                                  let h := if h12 = 12 then 12 else h12 + 12
                                  if 1 ≤ y ∧ d ≤ daysInMonth y mo then
                                    some ⟨y, mo, d, h, mi2⟩
                                  else none
                                | _ => none
                              else none
                          else none
                        else none
                    else none
                  | _ => none
                else none
            else none
        else none
    else none
  | _ => none

/-- Days from 1970-01-01 to year/month/day of the proleptic Gregorian
calendar (the civil-from-days algorithm, specialised to `year ≥ 1` so all
intermediate divisions are on naturals). -/
def daysFromCivil (y m d : Nat) : Int :=
  let y2 := if m ≤ 2 then y - 1 else y
  let era := y2 / 400
  let yoe := y2 % 400
  let mp := (m + 9) % 12
  let doy := (153 * mp + 2) / 5 + d - 1
  let doe := yoe * 365 + yoe / 4 - yoe / 100 + doy
  (↑(era * 146097 + doe) : Int) - 719468

/-- Epoch milliseconds of a naive datetime under a UTC process environment:
the meaning of `dt.timestamp() * 1000` for the naive values this program
builds (whole minutes, so the float arithmetic is exact). -/
def naiveEpochMs (dt : LocalDT) : Int :=
  (daysFromCivil dt.year dt.month dt.day * 86400
    + (dt.hour : Int) * 3600 + (dt.minute : Int) * 60) * 1000

/-- The constant `DEFAULT_TIMEZONE_OFFSET_MS = 2 * 60 * 60 * 1000`. -/
def DEFAULT_TIMEZONE_OFFSET_MS : Int := 2 * 60 * 60 * 1000

/-- A Daylio day-entry record as constructed by `import_how_we_feel_csv`
(the dictionary literal at the end of the row loop, in source field order). -/
structure DayEntry where
  id : Int
  minute : Nat
  hour : Nat
  day : Nat
  month : Nat
  year : Nat
  datetime : Int
  timeZoneOffset : Int
  mood : Int
  note : String
  note_title : String
  tags : List Int
  assets : List JVal
  isFavorite : Bool

/-- Encode a constructed entry back to its raw dictionary form (the shape in
which it is concatenated with the primary entries and serialized). -/
def encodeDayEntry (e : DayEntry) : JVal :=
  .obj [("id", .int e.id), ("minute", .int (e.minute : Int)), ("hour", .int (e.hour : Int)),
        ("day", .int (e.day : Int)), ("month", .int (e.month : Int)),
        ("year", .int (e.year : Int)), ("datetime", .int e.datetime),
        ("timeZoneOffset", .int e.timeZoneOffset), ("mood", .int e.mood),
        ("note", .str e.note), ("note_title", .str e.note_title),
        ("tags", .arr (e.tags.map JVal.int)), ("assets", .arr e.assets),
        ("isFavorite", .bool e.isFavorite)]

/-- The in-memory `DaylioJournal`: moods and tags keyed by id (Python dicts),
entries kept in their raw record form (`Entry` objects retain `_data`, which
is what the merge step re-exports). -/
structure Journal where
  moods : List (Int × JVal)
  tags : List (Int × JVal)
  entries : List JVal

/-- Python `data.get(key, [])` followed by iteration: absent keys give the empty
list, a non-list value raises. -/
def getListField (doc : List (String × JVal)) (k : String) : Except String (List JVal) :=
  match pdictGet doc k with
  | none => .ok []
  | some (.arr l) => .ok l
  | some _ => .error "TypeError: value is not a list"

/-- The dict comprehension building `self.moods` / `self.tags`:
each element must be a dict carrying an `id` key (else `KeyError`/`TypeError`);
ids are integers per the schema.  Left fold of `d[id] = m`. -/
def mkIdDict : List (Int × JVal) → List JVal → Except String (List (Int × JVal))
  | acc, [] => .ok acc
  | acc, v :: rest =>
    match v with
    | .obj fields =>
      match pdictGet fields "id" with
      | some (.int i) => mkIdDict (pdictInsert acc i v) rest
      | some _ => .error "TypeError: id is not an integer"
      | none => .error "KeyError: id"
    | _ => .error "TypeError: element is not a dict"

/-- Model of `Entry.__init__`: the listed keys are accessed unconditionally
(`KeyError` when absent); `note` and `note_title` are `.strip()`ed when
present, which raises unless they are strings.  The raw record itself is
retained unchanged (`self._data = data`). -/
def validateEntry (v : JVal) : Except String JVal :=
  match v with
  | .obj fields =>
    if (["id", "minute", "hour", "day", "month", "year", "mood"].all
          (fun k => (pdictGet fields k).isSome))
       && (match pdictGet fields "note" with
           | none => true | some (.str _) => true | some _ => false)
       && (match pdictGet fields "note_title" with
           | none => true | some (.str _) => true | some _ => false)
    then .ok v
    else .error "KeyError or AttributeError in Entry init"
  | _ => .error "TypeError: entry is not a dict"

def validateEntries : List JVal → Except String (List JVal)
  | [] => .ok []
  | v :: rest =>
    match validateEntry v with
    | .error e => .error e
    | .ok _ =>
      match validateEntries rest with
      | .error e => .error e
      | .ok rest2 => .ok (v :: rest2)

/-- Model of `DaylioJournal.__init__` on a decoded document. -/
def mkJournal (doc : List (String × JVal)) : Except String Journal :=
  match getListField doc "customMoods" with
  | .error e => .error e
  | .ok moodList =>
    match mkIdDict [] moodList with
    | .error e => .error e
    | .ok moods =>
      match getListField doc "tags" with
      | .error e => .error e
      | .ok tagList =>
        match mkIdDict [] tagList with
        | .error e => .error e
        | .ok tags =>
          match getListField doc "dayEntries" with
          | .error e => .error e
          | .ok entryList =>
            match validateEntries entryList with
            | .error e => .error e
            | .ok entries => .ok ⟨moods, tags, entries⟩

/-- Truthiness and name selection for `DaylioJournal.get_mood_name`.  When the id is absent, `self.moods.get`
returns `None`; `mood and mood.get("custom_name")` is then falsy and the
else-branch evaluates `mood.get("name", ...)` on `None`, raising
`AttributeError`.  When present, the dict's truthiness (non-emptiness) and
the truthiness of `custom_name` select between the two name fields. -/
def jvalTruthy : JVal → Bool
  | .null => false
  | .bool b => b
  | .int n => n ≠ 0
  | .str s => !s.isEmpty
  | .arr l => !l.isEmpty
  | .obj l => !l.isEmpty

def get_mood_name (j : Journal) (moodId : Int) : Except String JVal :=
  match pdictGet j.moods moodId with
  | none => .error "AttributeError: NoneType object has no attribute get"
  | some mood =>
    match mood with
    | .obj fields =>
      if !fields.isEmpty && jvalTruthy ((pdictGet fields "custom_name").getD .null) then
        .ok ((pdictGet fields "custom_name").getD .null)
      else
        .ok ((pdictGet fields "name").getD (.str ("Unknown Mood ID (" ++ toString moodId ++ ")")))
    | _ => .error "AttributeError: value has no attribute get"

/-- The fixed tag-bearing columns. -/
def TAG_COLUMNS : List String :=
  ["Tags (People)", "Tags (Places)", "Tags (Events)", "Exercise", "Sleep",
   "Menstrual", "Steps", "Meditation", "Weather"]

/-- The row mapping `{header[i].strip(): value for i, value in enumerate(row) if i < len(header)}`. -/
def buildRowData (header row : List String) : List (String × String) :=
  (row.enum.filterMap (fun p =>
    match header.get? p.1 with
    | some h => some (pyTrim h, p.2)
    | none => none)).foldl (fun acc q => pdictInsert acc q.1 q.2) []

/-- Candidate tag names collected from one row, in column order:
`Menstrual` contributes the literal name when its cell is non-empty, the
other tag columns are split on `;`, trimmed, empty fragments dropped. -/
def collectRowTags (rowData : List (String × String)) : List String :=
  TAG_COLUMNS.foldl (fun acc col =>
    let raw := (pdictGet rowData col).getD ""
    if col = "Menstrual" then
      if !raw.isEmpty then acc ++ ["Menstrual"] else acc
    else
      if !raw.isEmpty then
        acc ++ ((pySplitOnChar ';' raw).map pyTrim).filter (fun t => !t.isEmpty)
      else acc) []

/-- The allocation loop of `get_tag_ids_from_row`: for each (deduplicated)
candidate name, normalize it; reuse the mapped id when the reverse lookup
knows the name, otherwise insert `{"id": next, "name": name}` into the
journal's tag dict, register it, and bump the counter.  Returns the updated
tag dict, reverse lookup, counter, and the collected id list in order. -/
def allocTags : List (Int × JVal) → List (String × Int) → Int → List String →
    List (Int × JVal) × List (String × Int) × Int × List Int
  | tags, n2i, next, [] => (tags, n2i, next, [])
  | tags, n2i, next, name :: rest =>
    let dn := daylioNorm name
    match pdictGet n2i dn with
    | none =>
      let tags2 := pdictInsert tags next (.obj [("id", .int next), ("name", .str dn)])
      let n2i2 := pdictInsert n2i dn next
      let r := allocTags tags2 n2i2 (next + 1) rest
      (r.1, r.2.1, r.2.2.1, next :: r.2.2.2)
    | some tid =>
      let r := allocTags tags n2i next rest
      (r.1, r.2.1, r.2.2.1, tid :: r.2.2.2)

/-- Model of `get_tag_ids_from_row` on one row: collect, deduplicate
(`list(set(...))`, modelled as first-occurrence order since the set's
iteration order does not affect the proved properties), then allocate. -/
def get_tag_ids_from_row (rowData : List (String × String))
    (tags : List (Int × JVal)) (n2i : List (String × Int)) (next : Int) :
    List (Int × JVal) × List (String × Int) × Int × List Int :=
  allocTags tags n2i next (collectRowTags rowData).eraseDups

/-- Mutable state threaded through the row loop of `import_how_we_feel_csv`:
the journal's tag dict, the reverse name lookup, the `next_tag_id` counter,
the accumulated `daylio_entries`, and the diagnostics printed so far. -/
structure ImpState where
  tags : List (Int × JVal)
  nameToId : List (String × Int)
  nextTagId : Int
  entries : List DayEntry
  diags : List String

/-- One iteration of the row loop.  An empty row (blank CSV line) is skipped
with no effect; a missing `Date` or `Mood` key raises `KeyError` (aborting
the import); an unparseable date prints a diagnostic and skips the row. -/
def processRow (header : List String) (st : ImpState) :
    List String → Except String ImpState
  | [] => .ok st
  | c :: cs =>
    let rowData := buildRowData header (c :: cs)
    match pdictGet rowData "Date" with
    | none => .error "KeyError: Date"
    | some dateStr =>
      match parseHWFDate dateStr with
      | none =>
        .ok { st with diags :=
          st.diags ++ ["Skipping entry due to invalid date format: " ++ dateStr] }
      | some dt =>
        let timestampMs : Int := naiveEpochMs dt - DEFAULT_TIMEZONE_OFFSET_MS
        let r := get_tag_ids_from_row rowData st.tags st.nameToId st.nextTagId
        match pdictGet rowData "Mood" with
        | none => .error "KeyError: Mood"
        | some _ =>
          let e : DayEntry :=
            { id := (st.entries.length : Int) + 1
              minute := dt.minute
              hour := dt.hour
              day := dt.day
              month := dt.month - 1
              year := dt.year
              datetime := timestampMs
              timeZoneOffset := DEFAULT_TIMEZONE_OFFSET_MS
              mood := 1
              note := pyTrim ((pdictGet rowData "Notes").getD "")
              note_title := ""
              tags := r.2.2.2
              assets := []
              isFavorite := false }
          .ok { tags := r.1, nameToId := r.2.1, nextTagId := r.2.2.1,
                entries := st.entries ++ [e], diags := st.diags }

def processRows (header : List String) : ImpState → List (List String) →
    Except String ImpState
  | st, [] => .ok st
  | st, row :: rest =>
    match processRow header st row with
    | .error e => .error e
    | .ok st2 => processRows header st2 rest

/-- The reverse lookup `{tag['name']: tag_id for tag_id, tag in journal.tags.items()}`.
A tag without a `name` key raises `KeyError`; a non-dict tag raises
`TypeError`.  A non-string name would be a dict key that no string query
can ever match, so it is omitted from this string-keyed model. -/
def buildNameToId : List (String × Int) → List (Int × JVal) →
    Except String (List (String × Int))
  | acc, [] => .ok acc
  | acc, (tid, tag) :: rest =>
    match tag with
    | .obj fields =>
      match pdictGet fields "name" with
      | some (.str n) => buildNameToId (pdictInsert acc n tid) rest
      | some _ => buildNameToId acc rest
      | none => .error "KeyError: name"
    | _ => .error "TypeError: tag is not a dict"

/-- Model of `import_how_we_feel_csv` over the parsed CSV rows.  The first row is the
header (`next(reader)` raises `StopIteration` on empty input).  Returns the
converted entries, the printed diagnostics, and the journal with its
(possibly grown) tag dict. -/
def import_how_we_feel_csv (rows : List (List String)) (j : Journal) :
    Except String (List DayEntry × List String × Journal) :=
  match rows with
  | [] => .error "StopIteration"
  | header :: dataRows =>
    match buildNameToId [] j.tags with
    | .error e => .error e
    | .ok n2i =>
      let st0 : ImpState :=
        ⟨j.tags, n2i, pymax (j.tags.map Prod.fst) 0 + 1, [], []⟩
      match processRows header st0 dataRows with
      | .error e => .error e
      | .ok st => .ok (st.entries, st.diags, { j with tags := st.tags })

/-- The id overwrite `entry_dict["id"] = i + 1` (a no-op on a non-dict, which cannot occur for
validated or freshly encoded entries). -/
def jvalSetId (e : JVal) (v : Int) : JVal :=
  match e with
  | .obj l => .obj (pdictInsert l "id" (.int v))
  | x => x

def jvalGetId (e : JVal) : Option JVal :=
  match e with
  | .obj l => pdictGet l "id"
  | _ => none

/-- An entry record with its `id` bindings removed (to compare records up to
the renumbering). -/
def jvalEraseId (e : JVal) : JVal :=
  match e with
  | .obj l => .obj (pdictErase l "id")
  | x => x

/-- The loop `for i, entry_dict in enumerate(all_entries): entry_dict["id"] = i + 1`. -/
def renumberFrom : Nat → List JVal → List JVal
  | _, [] => []
  | i, e :: rest => jvalSetId e ((i : Int) + 1) :: renumberFrom (i + 1) rest

/-- Model of `merge_journals` on decoded inputs (file I/O and JSON decoding are the
surrounding plumbing): build the journal, run the importer, concatenate
primary raw records with encoded imported records, renumber ids from 1, and
overwrite exactly the three fields `dayEntries`, `tags`, `customMoods` on a
copy of the original document. -/
def merge_journals (doc : List (String × JVal)) (rows : List (List String)) :
    Except String (List (String × JVal)) :=
  match mkJournal doc with
  | .error e => .error e
  | .ok j =>
    match import_how_we_feel_csv rows j with
    | .error e => .error e
    | .ok (imp, _diags, j2) =>
      let allEntries := j.entries ++ imp.map encodeDayEntry
      let renumbered := renumberFrom 0 allEntries
      .ok (pdictInsert
            (pdictInsert
              (pdictInsert doc "dayEntries" (.arr renumbered))
              "tags" (.arr (j2.tags.map Prod.snd)))
            "customMoods" (.arr (j.moods.map Prod.snd)))

def c2hdr : List String := ["Date", "Mood"]

def c2row : List String := ["2025 Sat Oct 4 8:09 PM", "Happy"]

def c2st0 : ImpState := ⟨[], [], 1, [], []⟩

def c2dt : LocalDT := ⟨2025, 10, 4, 20, 9⟩

def c2st1 : ImpState :=
  match processRow c2hdr c2st0 c2row with
  | .ok st => st
  | .error _ => c2st0

/-- A concrete primary document used by the witnesses. -/
def sampleDoc : List (String × JVal) :=
  [("version", .str "15"),
   ("isReminderOn", .bool true),
   ("customMoods", .arr [.obj [("id", .int 1), ("custom_name", .str "happy")],
                         .obj [("id", .int 2), ("custom_name", .str "sad")]]),
   ("tags", .arr [.obj [("id", .int 3), ("name", .str "work")]]),
   ("dayEntries", .arr [.obj [("id", .int 1), ("minute", .int 0), ("hour", .int 1),
      ("day", .int 2), ("month", .int 3), ("year", .int 2020), ("mood", .int 1),
      ("datetime", .int 0), ("timeZoneOffset", .int 0), ("note", .str "x")]]),
   ("extraField", .int 42)]

/-- A concrete secondary CSV (parsed rows) used by the witnesses: one good
row, one blank line, one bad date, one row reusing tags. -/
def sampleRows : List (List String) :=
  [["Date", "Mood", "Tags (People)", "Menstrual", "Notes"],
   ["2025 Sat Oct 4 8:09 PM", "Happy", "Friend A; Friend B;  ", "X", " note here "],
   [],
   ["bad date", "Sad", "", "", ""],
   ["2025 Sun Oct 5 12:01 AM", "Sad", "Friend A; Work", "", ""]]

def sampleJournal : Journal :=
  match mkJournal sampleDoc with
  | .ok j => j
  | .error _ => ⟨[], [], []⟩

def sampleImport : List DayEntry × List String × Journal :=
  match import_how_we_feel_csv sampleRows sampleJournal with
  | .ok t => t
  | .error _ => ([], [], sampleJournal)

def sampleOut : List (String × JVal) :=
  match merge_journals sampleDoc sampleRows with
  | .ok o => o
  | .error _ => []

def c4hdr : List String := ["Date", "Mood", "Notes"]

def c4out : List (String × JVal) :=
  match merge_journals sampleDoc [c4hdr] with
  | .ok o => o
  | .error _ => []

/-- The tag table's ids are pairwise distinct. -/
def TagsND (tags : List (Int × JVal)) : Prop := (tags.map Prod.fst).Nodup

/-- Every id in the tag table is below the allocation counter. -/
def TagsLt (tags : List (Int × JVal)) (next : Int) : Prop :=
  ∀ x ∈ tags.map Prod.fst, x < next

/-- Soundness of the reverse name lookup: each entry `(name, id)` points at a
tag record stored under `id` whose `id` field is `id` and whose `name` field
is exactly `name`. -/
def N2IOK (tags : List (Int × JVal)) (n2i : List (String × Int)) : Prop :=
  ∀ q ∈ n2i, ∃ fields, pdictGet tags q.2 = some (.obj fields) ∧
    pdictGet fields "id" = some (.int q.2) ∧
    pdictGet fields "name" = some (.str q.1)

/-- A tag id resolves in the table to a record with matching `id` field and a
normalization-fixed `name`. -/
def TagOK (tags : List (Int × JVal)) (tid : Int) : Prop :=
  ∃ fields, pdictGet tags tid = some (.obj fields) ∧
    pdictGet fields "id" = some (.int tid) ∧
    ∃ nm, pdictGet fields "name" = some (.str nm) ∧ daylioNorm nm = nm

/-- The consecutive ids `base, base+1, ..., base+k-1`. -/
def rangeIntsFrom (base : Int) (k : Nat) : List Int :=
  (List.range k).map (fun (i : Nat) => base + (i : Int))

/-- The loop invariant of `import_how_we_feel_csv` relative to the journal
it started from: tag ids are the original ones followed by a consecutive
block from `max(existing, default 0) + 1`, the counter sits at its end, ids
are distinct and below the counter, the reverse lookup is sound, and every
produced entry's tag ids resolve. -/
def ImpInv (j : Journal) (st : ImpState) : Prop :=
  ∃ k : Nat,
    st.tags.map Prod.fst
      = j.tags.map Prod.fst ++ rangeIntsFrom (pymax (j.tags.map Prod.fst) 0 + 1) k ∧
    st.nextTagId = pymax (j.tags.map Prod.fst) 0 + 1 + k ∧
    TagsND st.tags ∧ TagsLt st.tags st.nextTagId ∧ N2IOK st.tags st.nameToId ∧
    (∀ e ∈ st.entries, ∀ t ∈ e.tags, TagOK st.tags t)

theorem pdictGet_insert_self {α β : Type} [DecidableEq α] (l : List (α × β)) (k : α) (v : β) :
    pdictGet (pdictInsert l k v) k = some v := by
  induction l with
  | nil => simp [pdictInsert, pdictGet]
  | cons p rest ih =>
    obtain ⟨a, b⟩ := p
    by_cases h : a = k
    · simp [pdictInsert, h, pdictGet]
    · simp [pdictInsert, h, pdictGet, ih]

theorem pdictGet_insert_ne {α β : Type} [DecidableEq α] (l : List (α × β)) (k k2 : α) (v : β)
    (h : k2 ≠ k) : pdictGet (pdictInsert l k v) k2 = pdictGet l k2 := by
  induction l with
  | nil => simp [pdictInsert, pdictGet, Ne.symm h]
  | cons p rest ih =>
    obtain ⟨a, b⟩ := p
    by_cases hp : a = k
    · subst hp
      simp [pdictInsert, pdictGet, Ne.symm h]
    · simp [pdictInsert, hp, pdictGet, ih]

theorem pdictInsert_of_get_eq {α β : Type} [DecidableEq α] (l : List (α × β)) (k : α) (v : β)
    (h : pdictGet l k = some v) : pdictInsert l k v = l := by
  induction l with
  | nil => simp [pdictGet] at h
  | cons p rest ih =>
    obtain ⟨a, b⟩ := p
    by_cases hp : a = k
    · subst hp
      simp [pdictGet] at h
      subst h
      simp [pdictInsert]
    · simp only [pdictGet, if_neg hp] at h
      simp [pdictInsert, hp, ih h]

theorem pdictInsert_of_not_mem {α β : Type} [DecidableEq α] (l : List (α × β)) (k : α) (v : β)
    (h : k ∉ l.map Prod.fst) : pdictInsert l k v = l ++ [(k, v)] := by
  induction l with
  | nil => simp [pdictInsert]
  | cons p rest ih =>
    obtain ⟨a, b⟩ := p
    simp only [List.map_cons, List.mem_cons] at h
    push_neg at h
    simp [pdictInsert, Ne.symm h.1, ih h.2]

theorem pdictGet_mem {α β : Type} [DecidableEq α] (l : List (α × β)) (k : α) (v : β)
    (h : pdictGet l k = some v) : (k, v) ∈ l := by
  induction l with
  | nil => simp [pdictGet] at h
  | cons p rest ih =>
    obtain ⟨a, b⟩ := p
    by_cases hp : a = k
    · subst hp
      simp [pdictGet] at h
      subst h
      exact List.mem_cons_self _ _
    · simp only [pdictGet, if_neg hp] at h
      exact List.mem_cons_of_mem _ (ih h)

theorem pdictGet_isSome_of_mem {α β : Type} [DecidableEq α] (l : List (α × β)) (k : α) (v : β)
    (h : (k, v) ∈ l) : (pdictGet l k).isSome := by
  induction l with
  | nil => simp at h
  | cons p rest ih =>
    obtain ⟨a, b⟩ := p
    rcases List.mem_cons.1 h with h1 | h2
    · rw [Prod.mk.injEq] at h1
      simp [pdictGet, h1.1.symm]
    · by_cases hp : a = k
      · simp [pdictGet, hp]
      · simp only [pdictGet, hp, if_neg hp]
        exact ih h2

theorem pdictGet_of_mem_nodup {α β : Type} [DecidableEq α] (l : List (α × β)) (k : α) (v : β)
    (hmem : (k, v) ∈ l) (hnd : (l.map Prod.fst).Nodup) : pdictGet l k = some v := by
  induction l with
  | nil => simp at hmem
  | cons p rest ih =>
    obtain ⟨a, b⟩ := p
    simp only [List.map_cons, List.nodup_cons] at hnd
    rcases List.mem_cons.1 hmem with h1 | h2
    · rw [Prod.mk.injEq] at h1
      simp [pdictGet, h1.1.symm, h1.2.symm]
    · have hk : a ≠ k := by
        intro hkk
        exact hnd.1 (hkk ▸ (List.mem_map.2 ⟨(k, v), h2, rfl⟩))
      simp only [pdictGet, if_neg hk]
      exact ih h2 hnd.2

theorem pdictErase_insert {α β : Type} [DecidableEq α] (l : List (α × β)) (k : α) (v : β) :
    pdictErase (pdictInsert l k v) k = pdictErase l k := by
  induction l with
  | nil => simp [pdictInsert, pdictErase]
  | cons p rest ih =>
    obtain ⟨a, b⟩ := p
    by_cases hp : a = k
    · subst hp
      simp [pdictInsert, pdictErase, List.filter_cons]
    · have h1 : pdictInsert ((a, b) :: rest) k v = (a, b) :: pdictInsert rest k v := by
        simp [pdictInsert, hp]
      have h2 : ∀ tl : List (α × β), pdictErase ((a, b) :: tl) k = (a, b) :: pdictErase tl k := by
        intro tl
        simp [pdictErase, List.filter_cons, hp]
      rw [h1, h2, h2, ih]

theorem pdictInsert_keys_mem {α β : Type} [DecidableEq α] (l : List (α × β)) (k : α) (v : β)
    (h : k ∈ l.map Prod.fst) : (pdictInsert l k v).map Prod.fst = l.map Prod.fst := by
  induction l with
  | nil => simp at h
  | cons p rest ih =>
    obtain ⟨a, b⟩ := p
    by_cases hp : a = k
    · simp [pdictInsert, hp]
    · simp only [List.map_cons, List.mem_cons] at h
      rcases h with h1 | h2
      · exact absurd h1.symm hp
      · simp [pdictInsert, hp, ih h2]

theorem pdictInsert_mem {α β : Type} [DecidableEq α] (l : List (α × β)) (k : α) (v : β)
    (p : α × β) (h : p ∈ pdictInsert l k v) : p ∈ l ∨ p = (k, v) := by
  induction l with
  | nil =>
    simp only [pdictInsert, List.mem_singleton] at h
    right; exact h
  | cons q rest ih =>
    obtain ⟨a, b⟩ := q
    by_cases hq : a = k
    · subst hq
      simp only [pdictInsert, if_true, List.mem_cons] at h
      rcases h with h1 | h2
      · right; exact h1
      · left; exact List.mem_cons_of_mem _ h2
    · simp only [pdictInsert, if_neg hq, List.mem_cons] at h
      rcases h with h1 | h2
      · left; exact h1 ▸ List.mem_cons_self _ rest
      · rcases ih h2 with h3 | h4
        · left; exact List.mem_cons_of_mem _ h3
        · right; exact h4

theorem le_foldl_max (l : List Int) (a : Int) : a ≤ l.foldl max a := by
  induction l generalizing a with
  | nil => simp
  | cons x xs ih => exact le_trans (le_max_left a x) (ih (max a x))

theorem mem_le_foldl_max (l : List Int) (x : Int) (h : x ∈ l) :
    ∀ a : Int, x ≤ l.foldl max a := by
  induction l with
  | nil => simp at h
  | cons y ys ih =>
    intro a
    rcases List.mem_cons.1 h with h1 | h2
    · subst h1
      exact le_trans (le_max_right a x) (le_foldl_max ys (max a x))
    · exact ih h2 (max a y)

theorem mem_le_pymax (l : List Int) (d : Int) (x : Int) (h : x ∈ l) : x ≤ pymax l d := by
  cases l with
  | nil => simp at h
  | cons y ys =>
    rcases List.mem_cons.1 h with h1 | h2
    · subst h1
      exact le_foldl_max ys x
    · exact mem_le_foldl_max ys x h2 y

theorem char_toNat_ofNat_valid (n : Nat) (h : n < 55296) : (Char.ofNat n).toNat = n := by
  have hv : n.isValidChar := Or.inl h
  simp [Char.ofNat, hv, Char.ofNatAux, Char.toNat, UInt32.toNat, BitVec.toNat_ofNatLt]

theorem pyLowerChar_not_upper (c : Char) :
    ¬(65 ≤ (pyLowerChar c).toNat ∧ (pyLowerChar c).toNat ≤ 90) := by
  by_cases h : 65 ≤ c.toNat ∧ c.toNat ≤ 90
  · have hlt : c.toNat + 32 < 55296 := by omega
    simp only [pyLowerChar, if_pos h, char_toNat_ofNat_valid _ hlt]
    omega
  · simp only [pyLowerChar, if_neg h]
    exact h

theorem pyLowerChar_idem (c : Char) : pyLowerChar (pyLowerChar c) = pyLowerChar c := by
  rw [pyLowerChar]
  rw [if_neg (pyLowerChar_not_upper c)]

theorem daylioNormChar_idem (c : Char) :
    daylioNormChar (daylioNormChar c) = daylioNormChar c := by
  by_cases h1 : pyLowerChar c = ' '
  · have hc : daylioNormChar c = '-' := by simp [daylioNormChar, h1]
    rw [hc]
    have hlow : pyLowerChar '-' = '-' := by decide
    simp [daylioNormChar, hlow]
  · by_cases h2 : pyLowerChar c = '/'
    · have hc : daylioNormChar c = '-' := by simp [daylioNormChar, h1, h2]
      rw [hc]
      have hlow : pyLowerChar '-' = '-' := by decide
      simp [daylioNormChar, hlow]
    · have hc : daylioNormChar c = pyLowerChar c := by simp [daylioNormChar, h1, h2]
      rw [hc]
      simp [daylioNormChar, pyLowerChar_idem, h1, h2]

theorem daylioNorm_data (s : String) :
    (daylioNorm s).data = s.data.map daylioNormChar := by
  simp only [daylioNorm, pyReplace, pyLower, List.map_map]
  apply List.map_congr_left
  intro c _
  simp only [Function.comp_apply, daylioNormChar]

theorem daylioNorm_norm (s : String) : daylioNorm (daylioNorm s) = daylioNorm s := by
  apply String.ext
  rw [daylioNorm_data, daylioNorm_data, List.map_map]
  apply List.map_congr_left
  intro c _
  simp only [Function.comp_apply]
  exact daylioNormChar_idem c

/-- C1: the claim says `get_mood_name` returns the placeholder
`"Unknown Mood ID (<id>)"` when the id is not present in the mood table and
never raises.  The code instead evaluates `mood.get("name", ...)` with
`mood = None` in exactly that case and raises `AttributeError`: on a journal
whose mood table lacks id 7, the call errors instead of returning the
placeholder. -/
theorem c1_get_mood_name_raises :
    get_mood_name ⟨[], [], []⟩ 7
      = .error "AttributeError: NoneType object has no attribute get" := rfl

/-- C10: a non-empty data row with fewer cells than the position of the
`Date` column builds a row mapping without the `Date` key, so
`row_data["Date"]` raises `KeyError` and the whole import aborts (the only
caught exception is the date-format `ValueError`). -/
theorem c10_short_row_aborts :
    import_how_we_feel_csv [["A", "Date"], ["x"]] ⟨[], [], []⟩
      = .error "KeyError: Date" := rfl

/-- C7: the tag-name normalization (lowercase, spaces to hyphens, slashes to
hyphens) is idempotent; in particular an already-normalized name is returned
unchanged. -/
theorem c7_tag_norm_idem (s : String) :
    daylioNorm (daylioNorm s) = daylioNorm s :=
  daylioNorm_norm s

/-- C8: a data row that is entirely empty (the empty cell list, which
`csv.reader` yields for a blank line) is skipped silently: removing it from
the row sequence changes nothing — no output record, no count, no
diagnostic, no tag-table effect. -/
theorem c8_empty_row_skipped (j : Journal) (header : List String)
    (r1 r2 : List (List String)) :
    import_how_we_feel_csv (header :: (r1 ++ [] :: r2)) j
      = import_how_we_feel_csv (header :: (r1 ++ r2)) j := by
  unfold import_how_we_feel_csv
  cases buildNameToId [] j.tags with
  | error e => rfl
  | ok n2i =>
    have h : ∀ st, processRows header st (r1 ++ [] :: r2)
        = processRows header st (r1 ++ r2) := by
      intro st
      induction r1 generalizing st with
      | nil => rfl
      | cons r rest ih =>
        simp only [List.cons_append, processRows]
        cases processRow header st r with
        | error e => rfl
        | ok st2 => exact ih st2
    simp only [h]

/-- C2: whenever a data row's `Date` cell parses under the fixed format, the
produced record's `datetime` is the epoch-millisecond timestamp of the
parsed local time (interpreted as UTC) minus the fixed assumed offset of
7,200,000 ms, and its `timeZoneOffset` is 7,200,000. -/
theorem c2_imported_datetime (header : List String) (st : ImpState)
    (row : List String) (st2 : ImpState) (ds : String) (dt : LocalDT)
    (h1 : processRow header st row = .ok st2)
    (h2 : pdictGet (buildRowData header row) "Date" = some ds)
    (h3 : parseHWFDate ds = some dt) :
    ∃ e : DayEntry, st2.entries = st.entries ++ [e] ∧
      e.datetime = naiveEpochMs dt - 7200000 ∧ e.timeZoneOffset = 7200000 := by
  cases row with
  | nil => simp [buildRowData, pdictGet] at h2
  | cons c cs =>
    unfold processRow at h1
    simp only [h2, h3] at h1
    cases hm : pdictGet (buildRowData header (c :: cs)) "Mood" with
    | none =>
      rw [hm] at h1
      exact absurd h1 (by simp)
    | some m =>
      rw [hm] at h1
      simp only [Except.ok.injEq] at h1
      subst h1
      exact ⟨_, rfl, rfl, rfl⟩

theorem c2_imported_datetime_witness :
    processRow c2hdr c2st0 c2row = .ok c2st1 ∧
    (∃ e : DayEntry, c2st1.entries = c2st0.entries ++ [e] ∧
      e.datetime = naiveEpochMs c2dt - 7200000 ∧ e.timeZoneOffset = 7200000) :=
  ⟨rfl, c2_imported_datetime c2hdr c2st0 c2row c2st1 "2025 Sat Oct 4 8:09 PM"
    c2dt rfl rfl rfl⟩

/-- C5: every top-level field of the merged output other than `dayEntries`,
`tags` and `customMoods` is passed through unchanged from the primary
document, and exactly those three fields carry the replacement lists. -/
theorem c5_merge_frame (doc : List (String × JVal)) (rows : List (List String))
    (out : List (String × JVal)) (hm : merge_journals doc rows = .ok out) :
    (∀ k : String, k ≠ "dayEntries" → k ≠ "tags" → k ≠ "customMoods" →
      pdictGet out k = pdictGet doc k) ∧
    (∃ es ts ms, pdictGet out "dayEntries" = some (.arr es) ∧
      pdictGet out "tags" = some (.arr ts) ∧
      pdictGet out "customMoods" = some (.arr ms)) := by
  unfold merge_journals at hm
  cases hj : mkJournal doc with
  | error e =>
    rw [hj] at hm
    exact absurd hm (by simp)
  | ok j =>
    simp only [hj] at hm
    cases hi : import_how_we_feel_csv rows j with
    | error e =>
      rw [hi] at hm
      exact absurd hm (by simp)
    | ok trip =>
      obtain ⟨imp, diags, j2⟩ := trip
      simp only [hi, Except.ok.injEq] at hm
      subst hm
      constructor
      · intro k h1 h2 h3
        rw [pdictGet_insert_ne _ _ _ _ h3, pdictGet_insert_ne _ _ _ _ h2,
            pdictGet_insert_ne _ _ _ _ h1]
      · refine ⟨renumberFrom 0 (j.entries ++ List.map encodeDayEntry imp),
                j2.tags.map Prod.snd, j.moods.map Prod.snd, ?_, ?_, ?_⟩
        · rw [pdictGet_insert_ne _ _ _ _ (by decide),
              pdictGet_insert_ne _ _ _ _ (by decide), pdictGet_insert_self]
        · rw [pdictGet_insert_ne _ _ _ _ (by decide), pdictGet_insert_self]
        · rw [pdictGet_insert_self]

theorem c5_merge_frame_witness :
    merge_journals sampleDoc sampleRows = .ok sampleOut ∧
    ((∀ k : String, k ≠ "dayEntries" → k ≠ "tags" → k ≠ "customMoods" →
        pdictGet sampleOut k = pdictGet sampleDoc k) ∧
     (∃ es ts ms, pdictGet sampleOut "dayEntries" = some (.arr es) ∧
        pdictGet sampleOut "tags" = some (.arr ts) ∧
        pdictGet sampleOut "customMoods" = some (.arr ms))) :=
  ⟨rfl, c5_merge_frame sampleDoc sampleRows sampleOut rfl⟩

theorem validateEntries_ok_eq (l l2 : List JVal) (h : validateEntries l = .ok l2) :
    l2 = l := by
  induction l generalizing l2 with
  | nil =>
    simp only [validateEntries, Except.ok.injEq] at h
    exact h.symm
  | cons v rest ih =>
    simp only [validateEntries] at h
    cases hv : validateEntry v with
    | error e => rw [hv] at h; exact absurd h (by simp)
    | ok v2 =>
      rw [hv] at h
      cases hr : validateEntries rest with
      | error e => rw [hr] at h; exact absurd h (by simp)
      | ok rest2 =>
        rw [hr] at h
        simp only [Except.ok.injEq] at h
        rw [← h, ih rest2 hr]

theorem validateEntries_ok_obj (l l2 : List JVal) (h : validateEntries l = .ok l2) :
    ∀ e ∈ l, ∃ fields, e = .obj fields := by
  induction l generalizing l2 with
  | nil => intro e he; simp at he
  | cons v rest ih =>
    intro e he
    simp only [validateEntries] at h
    cases hv : validateEntry v with
    | error e2 => rw [hv] at h; exact absurd h (by simp)
    | ok v2 =>
      rw [hv] at h
      cases hr : validateEntries rest with
      | error e2 => rw [hr] at h; exact absurd h (by simp)
      | ok rest2 =>
        rcases List.mem_cons.1 he with h1 | h2
        · subst h1
          cases e with
          | obj fields => exact ⟨fields, rfl⟩
          | null => exact absurd hv (by simp [validateEntry])
          | bool b => exact absurd hv (by simp [validateEntry])
          | int n => exact absurd hv (by simp [validateEntry])
          | str s => exact absurd hv (by simp [validateEntry])
          | arr a => exact absurd hv (by simp [validateEntry])
        · exact ih rest2 hr e h2

/-- Destructure a successful `mkJournal` into its component equations. -/
theorem mkJournal_parts (doc : List (String × JVal)) (j : Journal)
    (h : mkJournal doc = .ok j) :
    ∃ ml tl el, getListField doc "customMoods" = .ok ml ∧ mkIdDict [] ml = .ok j.moods ∧
      getListField doc "tags" = .ok tl ∧ mkIdDict [] tl = .ok j.tags ∧
      getListField doc "dayEntries" = .ok el ∧ validateEntries el = .ok j.entries := by
  unfold mkJournal at h
  cases h1 : getListField doc "customMoods" with
  | error e => rw [h1] at h; exact absurd h (by simp)
  | ok ml =>
    simp only [h1] at h
    cases h2 : mkIdDict [] ml with
    | error e => simp only [h2] at h; exact absurd h (by simp)
    | ok moods =>
      simp only [h2] at h
      cases h3 : getListField doc "tags" with
      | error e => simp only [h3] at h; exact absurd h (by simp)
      | ok tl =>
        simp only [h3] at h
        cases h4 : mkIdDict [] tl with
        | error e => simp only [h4] at h; exact absurd h (by simp)
        | ok tags =>
          simp only [h4] at h
          cases h5 : getListField doc "dayEntries" with
          | error e => simp only [h5] at h; exact absurd h (by simp)
          | ok el =>
            simp only [h5] at h
            cases h6 : validateEntries el with
            | error e => simp only [h6] at h; exact absurd h (by simp)
            | ok entries =>
              simp only [h6, Except.ok.injEq] at h
              subst h
              exact ⟨ml, tl, el, rfl, h2, rfl, h4, rfl, h6⟩

/-- All entries of a journal built by `mkJournal` are dict records. -/
theorem mkJournal_entries_obj (doc : List (String × JVal)) (j : Journal)
    (h : mkJournal doc = .ok j) : ∀ e ∈ j.entries, ∃ fields, e = .obj fields := by
  obtain ⟨ml, tl, el, _, _, _, _, _, h6⟩ := mkJournal_parts doc j h
  have heq := validateEntries_ok_eq el j.entries h6
  rw [heq]
  rw [heq] at h6
  exact validateEntries_ok_obj _ _ h6

theorem renumberFrom_map_eraseId (l : List JVal) :
    ∀ n, (renumberFrom n l).map jvalEraseId = l.map jvalEraseId := by
  induction l with
  | nil => intro n; rfl
  | cons e rest ih =>
    intro n
    simp only [renumberFrom, List.map_cons, ih]
    cases e with
    | obj fields => simp [jvalSetId, jvalEraseId, pdictErase_insert]
    | null => rfl
    | bool b => rfl
    | int m => rfl
    | str s => rfl
    | arr a => rfl

theorem renumberFrom_map_getId (l : List JVal)
    (hobj : ∀ e ∈ l, ∃ fields, e = .obj fields) :
    ∀ n : Nat, (renumberFrom n l).map jvalGetId
      = (List.range l.length).map (fun i => some (.int ((n : Int) + i + 1))) := by
  induction l with
  | nil => intro n; rfl
  | cons e rest ih =>
    intro n
    obtain ⟨fields, hf⟩ := hobj e (List.mem_cons_self e rest)
    subst hf
    have ihr := ih (fun e2 he2 => hobj e2 (List.mem_cons_of_mem _ he2)) (n + 1)
    simp only [renumberFrom, List.map_cons, List.length_cons, List.range_succ_eq_map,
      List.map_map, ihr]
    congr 1
    · simp [jvalSetId, jvalGetId, pdictGet_insert_self]
    · apply List.map_congr_left
      intro i _
      simp only [Function.comp_apply]
      congr 2
      push_cast
      ring

/-- C3: after merge the output entry list's ids are exactly 1..N with
N = primary count + successfully-imported count, and positionally the list
is the primary raw records followed by the imported records, unchanged
except for the id overwrite (so the two groups keep their source order and
never interleave). -/
theorem c3_merge_renumbers (doc : List (String × JVal)) (rows : List (List String))
    (j : Journal) (imp : List DayEntry) (diags : List String) (j2 : Journal)
    (out : List (String × JVal))
    (hj : mkJournal doc = .ok j)
    (hi : import_how_we_feel_csv rows j = .ok (imp, diags, j2))
    (hm : merge_journals doc rows = .ok out) :
    ∃ es : List JVal, pdictGet out "dayEntries" = some (.arr es) ∧
      es.map jvalGetId = (List.range (j.entries.length + imp.length)).map
          (fun i => some (.int ((i : Int) + 1))) ∧
      es.map jvalEraseId = (j.entries ++ imp.map encodeDayEntry).map jvalEraseId := by
  unfold merge_journals at hm
  simp only [hj, hi, Except.ok.injEq] at hm
  subst hm
  refine ⟨renumberFrom 0 (j.entries ++ imp.map encodeDayEntry), ?_, ?_, ?_⟩
  · rw [pdictGet_insert_ne _ _ _ _ (by decide),
        pdictGet_insert_ne _ _ _ _ (by decide), pdictGet_insert_self]
  · have hobj : ∀ e ∈ j.entries ++ imp.map encodeDayEntry,
        ∃ fields, e = .obj fields := by
      intro e he
      rcases List.mem_append.1 he with h1 | h2
      · exact mkJournal_entries_obj doc j hj e h1
      · obtain ⟨d, _, hd⟩ := List.mem_map.1 h2
        exact ⟨_, hd.symm⟩
    rw [renumberFrom_map_getId _ hobj 0]
    simp only [List.length_append, List.length_map]
    apply List.map_congr_left
    intro i _
    norm_num
  · exact renumberFrom_map_eraseId _ 0

theorem c3_merge_renumbers_witness :
    merge_journals sampleDoc sampleRows = .ok sampleOut ∧
    (∃ es : List JVal, pdictGet sampleOut "dayEntries" = some (.arr es) ∧
      es.map jvalGetId
        = (List.range (sampleJournal.entries.length + sampleImport.1.length)).map
            (fun i => some (.int ((i : Int) + 1))) ∧
      es.map jvalEraseId
        = (sampleJournal.entries ++ sampleImport.1.map encodeDayEntry).map
            jvalEraseId) :=
  ⟨rfl, c3_merge_renumbers sampleDoc sampleRows sampleJournal sampleImport.1
    sampleImport.2.1 sampleImport.2.2 sampleOut rfl rfl rfl⟩

theorem renumberFrom_eq_self (l : List JVal) :
    ∀ n : Nat,
    (∀ i (h : i < l.length), jvalGetId (l.get ⟨i, h⟩) = some (.int ((n : Int) + i + 1))) →
    renumberFrom n l = l := by
  induction l with
  | nil => intro n _; rfl
  | cons e rest ih =>
    intro n hids
    have h0 := hids 0 (by simp)
    simp only [List.get] at h0
    have htail : ∀ i (h : i < rest.length),
        jvalGetId (rest.get ⟨i, h⟩) = some (.int (((n + 1 : Nat) : Int) + i + 1)) := by
      intro i h
      have h1 := hids (i + 1) (by simpa using Nat.succ_lt_succ h)
      simp only [List.get] at h1
      rw [h1]
      congr 2
      push_cast
      ring
    cases e with
    | obj fields =>
      simp only [renumberFrom, ih (n + 1) htail]
      congr 1
      simp only [jvalSetId]
      congr 1
      apply pdictInsert_of_get_eq
      norm_num at h0
      exact h0
    | null => exact absurd h0 (by simp [jvalGetId])
    | bool b => exact absurd h0 (by simp [jvalGetId])
    | int m => exact absurd h0 (by simp [jvalGetId])
    | str s => exact absurd h0 (by simp [jvalGetId])
    | arr a => exact absurd h0 (by simp [jvalGetId])

/-- C4: merging a primary document with a header-only CSV yields the primary
document with entry ids renumbered 1..N and everything else unchanged; the
output tag and mood lists are the document's own lists (the id-keyed tables
collapse nothing when, as hypothesised, they enumerate back to the input
lists), and if the ids were already contiguous from 1 the output equals the
input document exactly. -/
theorem c4_header_only_roundtrip (doc : List (String × JVal)) (header : List String)
    (j : Journal) (out : List (String × JVal)) (pes ts ms : List JVal)
    (hE : pdictGet doc "dayEntries" = some (.arr pes))
    (hT : pdictGet doc "tags" = some (.arr ts))
    (hM : pdictGet doc "customMoods" = some (.arr ms))
    (hj : mkJournal doc = .ok j)
    (hTv : j.tags.map Prod.snd = ts)
    (hMv : j.moods.map Prod.snd = ms)
    (hm : merge_journals doc [header] = .ok out) :
    (∀ k : String, k ≠ "dayEntries" → pdictGet out k = pdictGet doc k) ∧
    pdictGet out "dayEntries" = some (.arr (renumberFrom 0 pes)) ∧
    ((∀ i (h : i < pes.length),
        jvalGetId (pes.get ⟨i, h⟩) = some (.int ((i : Int) + 1))) → out = doc) := by
  have hent : j.entries = pes := by
    obtain ⟨ml, tl, el, _, _, _, _, h5, h6⟩ := mkJournal_parts doc j hj
    have : getListField doc "dayEntries" = .ok pes := by
      unfold getListField
      rw [hE]
    rw [this] at h5
    simp only [Except.ok.injEq] at h5
    subst h5
    exact validateEntries_ok_eq _ _ h6
  unfold merge_journals at hm
  simp only [hj] at hm
  cases hb : buildNameToId [] j.tags with
  | error e =>
    have himp : import_how_we_feel_csv [header] j = .error e := by
      unfold import_how_we_feel_csv
      rw [hb]
    rw [himp] at hm
    exact absurd hm (by simp)
  | ok n2i =>
    have himp : import_how_we_feel_csv [header] j = .ok ([], [], j) := by
      unfold import_how_we_feel_csv
      rw [hb]
      rfl
    simp only [himp, Except.ok.injEq] at hm
    subst hm
    have hnil : j.entries ++ List.map encodeDayEntry [] = pes := by
      simp [hent]
    refine ⟨?_, ?_, ?_⟩
    · intro k hk
      by_cases hk2 : k = "tags"
      · subst hk2
        rw [pdictGet_insert_ne _ _ _ _ (by decide), pdictGet_insert_self, hTv, hT]
      · by_cases hk3 : k = "customMoods"
        · subst hk3
          rw [pdictGet_insert_self, hMv, hM]
        · rw [pdictGet_insert_ne _ _ _ _ hk3, pdictGet_insert_ne _ _ _ _ hk2,
              pdictGet_insert_ne _ _ _ _ hk]
    · rw [pdictGet_insert_ne _ _ _ _ (by decide),
          pdictGet_insert_ne _ _ _ _ (by decide), pdictGet_insert_self, hnil]
    · intro hids
      have hren : renumberFrom 0 pes = pes := by
        apply renumberFrom_eq_self pes 0
        intro i h
        rw [hids i h]
        norm_num
      rw [hnil, hren, hTv, hMv]
      rw [pdictInsert_of_get_eq doc "dayEntries" (.arr pes) hE]
      rw [pdictInsert_of_get_eq doc "tags" (.arr ts) hT]
      rw [pdictInsert_of_get_eq doc "customMoods" (.arr ms) hM]

theorem c4_header_only_roundtrip_witness :
    merge_journals sampleDoc [c4hdr] = .ok c4out ∧
    ((∀ k : String, k ≠ "dayEntries" → pdictGet c4out k = pdictGet sampleDoc k) ∧
     pdictGet c4out "dayEntries"
        = some (.arr (renumberFrom 0 [.obj [("id", .int 1), ("minute", .int 0),
            ("hour", .int 1), ("day", .int 2), ("month", .int 3), ("year", .int 2020),
            ("mood", .int 1), ("datetime", .int 0), ("timeZoneOffset", .int 0),
            ("note", .str "x")]])) ∧
     ((∀ i (h : i < ([.obj [("id", .int 1), ("minute", .int 0),
            ("hour", .int 1), ("day", .int 2), ("month", .int 3), ("year", .int 2020),
            ("mood", .int 1), ("datetime", .int 0), ("timeZoneOffset", .int 0),
            ("note", .str "x")]] : List JVal).length),
        jvalGetId (([.obj [("id", .int 1), ("minute", .int 0),
            ("hour", .int 1), ("day", .int 2), ("month", .int 3), ("year", .int 2020),
            ("mood", .int 1), ("datetime", .int 0), ("timeZoneOffset", .int 0),
            ("note", .str "x")]] : List JVal).get ⟨i, h⟩) = some (.int ((i : Int) + 1)))
       → c4out = sampleDoc)) :=
  ⟨rfl, c4_header_only_roundtrip sampleDoc c4hdr sampleJournal c4out _ _ _
    rfl rfl rfl rfl rfl rfl rfl⟩

theorem rangeIntsFrom_succ (b : Int) (k : Nat) :
    rangeIntsFrom b (k + 1) = b :: rangeIntsFrom (b + 1) k := by
  unfold rangeIntsFrom
  rw [List.range_succ_eq_map]
  simp only [List.map_cons, List.map_map]
  congr 1
  · simp
  · apply List.map_congr_left
    intro i _
    simp only [Function.comp_apply]
    push_cast
    ring

theorem rangeIntsFrom_append (b : Int) (k1 k2 : Nat) :
    rangeIntsFrom b k1 ++ rangeIntsFrom (b + k1) k2 = rangeIntsFrom b (k1 + k2) := by
  unfold rangeIntsFrom
  rw [List.range_add, List.map_append, List.map_map]
  congr 1
  apply List.map_congr_left
  intro i _
  simp only [Function.comp_apply]
  push_cast
  ring

theorem allocTags_spec (names : List String) :
    ∀ (tags : List (Int × JVal)) (n2i : List (String × Int)) (next : Int)
      (tags2 : List (Int × JVal)) (n2i2 : List (String × Int)) (next2 : Int)
      (ids : List Int),
    allocTags tags n2i next names = (tags2, n2i2, next2, ids) →
    TagsND tags → TagsLt tags next → N2IOK tags n2i →
    ∃ k : Nat,
      tags2.map Prod.fst = tags.map Prod.fst ++ rangeIntsFrom next k ∧
      next2 = next + k ∧
      TagsND tags2 ∧ TagsLt tags2 next2 ∧ N2IOK tags2 n2i2 ∧
      (∀ x r, pdictGet tags x = some r → pdictGet tags2 x = some r) ∧
      (∀ tid ∈ ids, TagOK tags2 tid) := by
  induction names with
  | nil =>
    intro tags n2i next tags2 n2i2 next2 ids h hnd hlt hok
    simp only [allocTags, Prod.mk.injEq] at h
    obtain ⟨h1, h2, h3, h4⟩ := h
    subst h1; subst h2; subst h3; subst h4
    refine ⟨0, by simp [rangeIntsFrom], by simp, hnd, hlt, hok,
      fun x r hx => hx, fun tid ht => absurd ht (by simp)⟩
  | cons name rest ih =>
    intro tags n2i next tags2 n2i2 next2 ids h hnd hlt hok
    simp only [allocTags] at h
    cases hq : pdictGet n2i (daylioNorm name) with
    | some tid =>
      simp only [hq] at h
      rcases hr : allocTags tags n2i next rest with ⟨rt, rn, rx, rids⟩
      rw [hr] at h
      simp only [Prod.mk.injEq] at h
      obtain ⟨h1, h2, h3, h4⟩ := h
      subst h1; subst h2; subst h3; subst h4
      obtain ⟨k, hkeys, hnext, hnd2, hlt2, hok2, hpres, hidsr⟩ :=
        ih tags n2i next rt rn rx rids hr hnd hlt hok
      refine ⟨k, hkeys, hnext, hnd2, hlt2, hok2, hpres, ?_⟩
      intro t ht
      rcases List.mem_cons.1 ht with h5 | h6
      · subst h5
        obtain ⟨fields, hf1, hf2, hf3⟩ := hok (daylioNorm name, t) (pdictGet_mem _ _ _ hq)
        exact ⟨fields, hpres _ _ hf1, hf2,
          daylioNorm name, hf3, daylioNorm_norm name⟩
      · exact hidsr t h6
    | none =>
      simp only [hq] at h
      rcases hr : allocTags
          (pdictInsert tags next (.obj [("id", .int next), ("name", .str (daylioNorm name))]))
          (pdictInsert n2i (daylioNorm name) next) (next + 1) rest with ⟨rt, rn, rx, rids⟩
      rw [hr] at h
      simp only [Prod.mk.injEq] at h
      obtain ⟨h1, h2, h3, h4⟩ := h
      subst h1; subst h2; subst h3; subst h4
      have hfresh : next ∉ tags.map Prod.fst := by
        intro hmem
        exact absurd (hlt next hmem) (lt_irrefl next)
      have hins : pdictInsert tags next
            (.obj [("id", .int next), ("name", .str (daylioNorm name))])
          = tags ++ [(next, .obj [("id", .int next), ("name", .str (daylioNorm name))])] :=
        pdictInsert_of_not_mem _ _ _ hfresh
      have hnd2 : TagsND (pdictInsert tags next
          (.obj [("id", .int next), ("name", .str (daylioNorm name))])) := by
        rw [hins]
        unfold TagsND
        rw [List.map_append]
        rw [List.nodup_append]
        refine ⟨hnd, by simp, ?_⟩
        intro x hx
        simp only [List.map_cons, List.map_nil, List.mem_singleton]
        intro he
        exact absurd (he ▸ hlt x hx) (lt_irrefl next)
      have hlt2 : TagsLt (pdictInsert tags next
          (.obj [("id", .int next), ("name", .str (daylioNorm name))])) (next + 1) := by
        rw [hins]
        intro x hx
        rw [List.map_append, List.mem_append] at hx
        rcases hx with hx1 | hx2
        · exact lt_trans (hlt x hx1) (by omega)
        · simp only [List.map_cons, List.map_nil, List.mem_singleton] at hx2
          omega
      have hok2 : N2IOK (pdictInsert tags next
            (.obj [("id", .int next), ("name", .str (daylioNorm name))]))
          (pdictInsert n2i (daylioNorm name) next) := by
        intro q hqmem
        rcases pdictInsert_mem _ _ _ q hqmem with hold | hnew
        · obtain ⟨fields, hf1, hf2, hf3⟩ := hok q hold
          refine ⟨fields, ?_, hf2, hf3⟩
          have hkey : q.2 ∈ tags.map Prod.fst :=
            List.mem_map.2 ⟨(q.2, .obj fields), pdictGet_mem _ _ _ hf1, rfl⟩
          have hne : q.2 ≠ next := by
            intro he
            exact absurd (he ▸ hlt q.2 hkey) (lt_irrefl next)
          rw [pdictGet_insert_ne _ _ _ _ hne]
          exact hf1
        · subst hnew
          exact ⟨[("id", .int next), ("name", .str (daylioNorm name))],
            pdictGet_insert_self _ _ _, rfl, rfl⟩
      obtain ⟨k, hkeys, hnext, hnd3, hlt3, hok3, hpres, hidsr⟩ :=
        ih _ _ _ rt rn rx rids hr hnd2 hlt2 hok2
      have hpres2 : ∀ x r, pdictGet tags x = some r → pdictGet rt x = some r := by
        intro x r hx
        apply hpres
        have hkey : x ∈ tags.map Prod.fst :=
          List.mem_map.2 ⟨(x, r), pdictGet_mem _ _ _ hx, rfl⟩
        have hne : x ≠ next := by
          intro he
          exact absurd (he ▸ hlt x hkey) (lt_irrefl next)
        rw [pdictGet_insert_ne _ _ _ _ hne]
        exact hx
      refine ⟨k + 1, ?_, ?_, hnd3, hlt3, hok3, hpres2, ?_⟩
      · rw [hkeys, hins, List.map_append, List.append_assoc]
        congr 1
        rw [rangeIntsFrom_succ]
        rfl
      · rw [hnext]
        push_cast
        ring
      · intro t ht
        rcases List.mem_cons.1 ht with h5 | h6
        · subst h5
          exact ⟨[("id", .int t), ("name", .str (daylioNorm name))],
            hpres _ _ (pdictGet_insert_self _ _ _), rfl,
            daylioNorm name, rfl, daylioNorm_norm name⟩
        · exact hidsr t h6

theorem TagOK_mono (tags tags2 : List (Int × JVal))
    (hpres : ∀ x r, pdictGet tags x = some r → pdictGet tags2 x = some r)
    (tid : Int) (h : TagOK tags tid) : TagOK tags2 tid := by
  obtain ⟨fields, h1, h2, h3⟩ := h
  exact ⟨fields, hpres _ _ h1, h2, h3⟩

theorem processRow_inv (header : List String) (j : Journal) (st : ImpState)
    (row : List String) (st2 : ImpState)
    (h : processRow header st row = .ok st2) (hinv : ImpInv j st) : ImpInv j st2 := by
  cases row with
  | nil =>
    simp only [processRow, Except.ok.injEq] at h
    subst h
    exact hinv
  | cons c cs =>
    simp only [processRow] at h
    cases hd : pdictGet (buildRowData header (c :: cs)) "Date" with
    | none => rw [hd] at h; exact absurd h (by simp)
    | some ds =>
      simp only [hd] at h
      cases hp : parseHWFDate ds with
      | none =>
        simp only [hp, Except.ok.injEq] at h
        subst h
        obtain ⟨k, h1, h2, h3, h4, h5, h6⟩ := hinv
        exact ⟨k, h1, h2, h3, h4, h5, h6⟩
      | some dt =>
        simp only [hp] at h
        cases hm2 : pdictGet (buildRowData header (c :: cs)) "Mood" with
        | none => rw [hm2] at h; exact absurd h (by simp)
        | some m =>
          simp only [hm2, Except.ok.injEq] at h
          subst h
          obtain ⟨k, h1, h2, h3, h4, h5, h6⟩ := hinv
          rcases hr : allocTags st.tags st.nameToId st.nextTagId
              ((collectRowTags (buildRowData header (c :: cs))).eraseDups)
            with ⟨rt, rn, rx, rids⟩
          obtain ⟨k2, hkeys, hnext, hnd2, hlt2, hok2, hpres, hids⟩ :=
            allocTags_spec _ _ _ _ _ _ _ _ hr h3 h4 h5
          refine ⟨k + k2, ?_, ?_, ?_, ?_, ?_, ?_⟩
          · simp only [get_tag_ids_from_row, hr]
            rw [hkeys, h1, h2, List.append_assoc, rangeIntsFrom_append]
          · simp only [get_tag_ids_from_row, hr]
            rw [hnext, h2]
            push_cast
            ring
          · simp only [get_tag_ids_from_row, hr]
            exact hnd2
          · simp only [get_tag_ids_from_row, hr]
            rw [hnext, h2]
            have : pymax (List.map Prod.fst j.tags) 0 + 1 + ↑k + ↑k2
                = pymax (List.map Prod.fst j.tags) 0 + 1 + ↑(k + k2) := by
              push_cast
              ring
            rw [← h2, ← hnext]
            exact hlt2
          · simp only [get_tag_ids_from_row, hr]
            exact hok2
          · simp only [get_tag_ids_from_row, hr]
            intro e he t ht
            rcases List.mem_append.1 he with he1 | he2
            · exact TagOK_mono _ _ hpres t (h6 e he1 t ht)
            · simp only [List.mem_singleton] at he2
              subst he2
              simp only [get_tag_ids_from_row, hr] at ht
              exact hids t ht

theorem processRows_inv (header : List String) (j : Journal)
    (rows : List (List String)) :
    ∀ (st st2 : ImpState), processRows header st rows = .ok st2 →
    ImpInv j st → ImpInv j st2 := by
  induction rows with
  | nil =>
    intro st st2 h hinv
    simp only [processRows, Except.ok.injEq] at h
    subst h
    exact hinv
  | cons row rest ih =>
    intro st st2 h hinv
    simp only [processRows] at h
    cases hrow : processRow header st row with
    | error e => rw [hrow] at h; exact absurd h (by simp)
    | ok st3 =>
      rw [hrow] at h
      exact ih st3 st2 h (processRow_inv header j st row st3 hrow hinv)

theorem pdictInsert_keys_nodup {α β : Type} [DecidableEq α]
    (l : List (α × β)) (k : α) (v : β) (h : (l.map Prod.fst).Nodup) :
    ((pdictInsert l k v).map Prod.fst).Nodup := by
  by_cases hk : k ∈ l.map Prod.fst
  · rw [pdictInsert_keys_mem _ _ _ hk]
    exact h
  · rw [pdictInsert_of_not_mem _ _ _ hk, List.map_append, List.nodup_append]
    refine ⟨h, by simp, ?_⟩
    intro x hx
    simp only [List.map_cons, List.map_nil, List.mem_singleton]
    intro he
    subst he
    exact hk hx

theorem mkIdDict_nodup (l : List JVal) :
    ∀ acc d, mkIdDict acc l = .ok d → TagsND acc → TagsND d := by
  induction l with
  | nil =>
    intro acc d h hnd
    simp only [mkIdDict, Except.ok.injEq] at h
    subst h
    exact hnd
  | cons v rest ih =>
    intro acc d h hnd
    cases v with
    | obj fields =>
      simp only [mkIdDict] at h
      cases hid : pdictGet fields "id" with
      | none => rw [hid] at h; exact absurd h (by simp)
      | some iv =>
        cases iv with
        | int i =>
          rw [hid] at h
          exact ih _ _ h (pdictInsert_keys_nodup _ _ _ hnd)
        | null => rw [hid] at h; exact absurd h (by simp)
        | bool b => rw [hid] at h; exact absurd h (by simp)
        | str s => rw [hid] at h; exact absurd h (by simp)
        | arr a => rw [hid] at h; exact absurd h (by simp)
        | obj o => rw [hid] at h; exact absurd h (by simp)
    | null => exact absurd h (by simp [mkIdDict])
    | bool b => exact absurd h (by simp [mkIdDict])
    | int n => exact absurd h (by simp [mkIdDict])
    | str s => exact absurd h (by simp [mkIdDict])
    | arr a => exact absurd h (by simp [mkIdDict])

theorem mkIdDict_fields (l : List JVal) :
    ∀ acc d, mkIdDict acc l = .ok d →
    (∀ p ∈ acc, ∃ fields, p.2 = .obj fields ∧ pdictGet fields "id" = some (.int p.1)) →
    ∀ p ∈ d, ∃ fields, p.2 = .obj fields ∧ pdictGet fields "id" = some (.int p.1) := by
  induction l with
  | nil =>
    intro acc d h hacc
    simp only [mkIdDict, Except.ok.injEq] at h
    subst h
    exact hacc
  | cons v rest ih =>
    intro acc d h hacc
    cases v with
    | obj fields =>
      simp only [mkIdDict] at h
      cases hid : pdictGet fields "id" with
      | none => rw [hid] at h; exact absurd h (by simp)
      | some iv =>
        cases iv with
        | int i =>
          rw [hid] at h
          refine ih _ _ h ?_
          intro p hp
          rcases pdictInsert_mem _ _ _ p hp with hold | hnew
          · exact hacc p hold
          · subst hnew
            exact ⟨fields, rfl, hid⟩
        | null => rw [hid] at h; exact absurd h (by simp)
        | bool b => rw [hid] at h; exact absurd h (by simp)
        | str s => rw [hid] at h; exact absurd h (by simp)
        | arr a => rw [hid] at h; exact absurd h (by simp)
        | obj o => rw [hid] at h; exact absurd h (by simp)
    | null => exact absurd h (by simp [mkIdDict])
    | bool b => exact absurd h (by simp [mkIdDict])
    | int n => exact absurd h (by simp [mkIdDict])
    | str s => exact absurd h (by simp [mkIdDict])
    | arr a => exact absurd h (by simp [mkIdDict])

theorem buildNameToId_spec (tags : List (Int × JVal)) (hnd : TagsND tags)
    (hfld : ∀ p ∈ tags, ∃ fields, p.2 = .obj fields ∧
      pdictGet fields "id" = some (.int p.1)) :
    ∀ (sub : List (Int × JVal)), (∀ p ∈ sub, p ∈ tags) →
    ∀ acc n2i, N2IOK tags acc → buildNameToId acc sub = .ok n2i →
    N2IOK tags n2i := by
  intro sub
  induction sub with
  | nil =>
    intro hsub acc n2i hacc h
    simp only [buildNameToId, Except.ok.injEq] at h
    subst h
    exact hacc
  | cons p rest ih =>
    intro hsub acc n2i hacc h
    obtain ⟨tid, tag⟩ := p
    obtain ⟨fields, hf1, hf2⟩ := hfld (tid, tag) (hsub _ (List.mem_cons_self _ _))
    simp only at hf1
    subst hf1
    simp only [buildNameToId] at h
    cases hn : pdictGet fields "name" with
    | none => rw [hn] at h; exact absurd h (by simp)
    | some nv =>
      have hsub2 : ∀ q ∈ rest, q ∈ tags := fun q hq => hsub q (List.mem_cons_of_mem _ hq)
      cases nv with
      | str n =>
        rw [hn] at h
        refine ih hsub2 _ _ ?_ h
        intro q hq
        rcases pdictInsert_mem _ _ _ q hq with hold | hnew
        · exact hacc q hold
        · subst hnew
          exact ⟨fields,
            pdictGet_of_mem_nodup _ _ _ (hsub _ (List.mem_cons_self _ _)) hnd,
            hf2, hn⟩
      | null => rw [hn] at h; exact ih hsub2 _ _ hacc h
      | bool b => rw [hn] at h; exact ih hsub2 _ _ hacc h
      | int m => rw [hn] at h; exact ih hsub2 _ _ hacc h
      | arr a => rw [hn] at h; exact ih hsub2 _ _ hacc h
      | obj o => rw [hn] at h; exact ih hsub2 _ _ hacc h

/-- The combined import invariant: for any successful run of the importer on
a journal built by `mkJournal`, the final tag table extends the original one
by a consecutive block of fresh ids starting at `max(existing, 0) + 1`, its
ids are pairwise distinct, and every imported entry's tag ids resolve to
records with matching id and normalized name. -/
theorem import_how_we_feel_inv (doc : List (String × JVal))
    (rows : List (List String)) (j : Journal) (imp : List DayEntry)
    (diags : List String) (j2 : Journal)
    (hj : mkJournal doc = .ok j)
    (hi : import_how_we_feel_csv rows j = .ok (imp, diags, j2)) :
    (∃ k : Nat, j2.tags.map Prod.fst
        = j.tags.map Prod.fst
          ++ rangeIntsFrom (pymax (j.tags.map Prod.fst) 0 + 1) k) ∧
    TagsND j2.tags ∧
    (∀ e ∈ imp, ∀ t ∈ e.tags, TagOK j2.tags t) := by
  obtain ⟨ml, tl, el, _, _, _, h4, _, _⟩ := mkJournal_parts doc j hj
  have hnd : TagsND j.tags := mkIdDict_nodup tl [] j.tags h4 (by simp [TagsND])
  have hfld : ∀ p ∈ j.tags, ∃ fields, p.2 = .obj fields ∧
      pdictGet fields "id" = some (.int p.1) :=
    mkIdDict_fields tl [] j.tags h4 (by simp)
  cases rows with
  | nil => exact absurd hi (by simp [import_how_we_feel_csv])
  | cons header dataRows =>
    simp only [import_how_we_feel_csv] at hi
    cases hb : buildNameToId [] j.tags with
    | error e => rw [hb] at hi; exact absurd hi (by simp)
    | ok n2i =>
      simp only [hb] at hi
      cases hps : processRows header
          ⟨j.tags, n2i, pymax (j.tags.map Prod.fst) 0 + 1, [], []⟩ dataRows with
      | error e => rw [hps] at hi; exact absurd hi (by simp)
      | ok st =>
        simp only [hps, Except.ok.injEq, Prod.mk.injEq] at hi
        obtain ⟨he, _, hj2⟩ := hi
        have hinv0 : ImpInv j ⟨j.tags, n2i, pymax (j.tags.map Prod.fst) 0 + 1, [], []⟩ := by
          refine ⟨0, by simp [rangeIntsFrom], by simp, hnd, ?_, ?_, by simp⟩
          · show ∀ x ∈ j.tags.map Prod.fst, x < pymax (j.tags.map Prod.fst) 0 + 1
            intro x hx
            have := mem_le_pymax (j.tags.map Prod.fst) 0 x hx
            omega
          · exact buildNameToId_spec j.tags hnd hfld j.tags (fun p hp => hp) [] n2i
              (by intro q hq; simp at hq) hb
        obtain ⟨k, hk1, _, hk3, _, _, hk6⟩ :=
          processRows_inv header j dataRows _ st hps hinv0
        subst hj2
        subst he
        exact ⟨⟨k, hk1⟩, hk3, hk6⟩

/-- C6: after any import, the tag-table ids are pairwise distinct, and the
newly allocated ids form the consecutive block starting at
`max(existing ids, default 0) + 1`, one per new tag, with no gaps. -/
theorem c6_tag_id_allocation (doc : List (String × JVal))
    (rows : List (List String)) (j : Journal) (imp : List DayEntry)
    (diags : List String) (j2 : Journal)
    (hj : mkJournal doc = .ok j)
    (hi : import_how_we_feel_csv rows j = .ok (imp, diags, j2)) :
    TagsND j2.tags ∧
    ∃ k : Nat, j2.tags.map Prod.fst
      = j.tags.map Prod.fst
        ++ rangeIntsFrom (pymax (j.tags.map Prod.fst) 0 + 1) k := by
  obtain ⟨hrange, hnd, _⟩ := import_how_we_feel_inv doc rows j imp diags j2 hj hi
  exact ⟨hnd, hrange⟩

/-- C9: every tag id carried by an imported entry is a key of the journal's
tag table after the import, and the record stored there has a matching `id`
field and a normalization-fixed `name` — no dangling tag references. -/
theorem c9_no_dangling_tags (doc : List (String × JVal))
    (rows : List (List String)) (j : Journal) (imp : List DayEntry)
    (diags : List String) (j2 : Journal)
    (hj : mkJournal doc = .ok j)
    (hi : import_how_we_feel_csv rows j = .ok (imp, diags, j2)) :
    ∀ e ∈ imp, ∀ t ∈ e.tags, TagOK j2.tags t := by
  obtain ⟨_, _, hok⟩ := import_how_we_feel_inv doc rows j imp diags j2 hj hi
  exact hok

theorem c6_tag_id_allocation_witness :
    import_how_we_feel_csv sampleRows sampleJournal
        = .ok (sampleImport.1, sampleImport.2.1, sampleImport.2.2) ∧
    (TagsND sampleImport.2.2.tags ∧
     ∃ k : Nat, sampleImport.2.2.tags.map Prod.fst
       = sampleJournal.tags.map Prod.fst
         ++ rangeIntsFrom (pymax (sampleJournal.tags.map Prod.fst) 0 + 1) k) :=
  ⟨rfl, c6_tag_id_allocation sampleDoc sampleRows sampleJournal sampleImport.1
    sampleImport.2.1 sampleImport.2.2 rfl rfl⟩

theorem c9_no_dangling_tags_witness :
    import_how_we_feel_csv sampleRows sampleJournal
        = .ok (sampleImport.1, sampleImport.2.1, sampleImport.2.2) ∧
    (∀ e ∈ sampleImport.1, ∀ t ∈ e.tags, TagOK sampleImport.2.2.tags t) :=
  ⟨rfl, c9_no_dangling_tags sampleDoc sampleRows sampleJournal sampleImport.1
    sampleImport.2.1 sampleImport.2.2 rfl rfl⟩
